import Mathlib

/-!
Shallow embedding of the fzc terminal launcher core (src/app.rs, src/model.rs):
the match/rank engine, the application state machine, the session log, the
ANSI interpreter and the query-editing helpers, together with theorems that
check the natural-language specification against this embedding.

Strings are embedded as `List Char` (`Str`).  Rust's Unicode-aware
`to_lowercase`, `is_alphanumeric` and `is_whitespace` are embedded by their
ASCII behaviour (`charLower`, `Char.isAlphanum`, `Char.isWhitespace`), which
coincides with Rust on every input appearing in the claims.  Rust `HashMap`s
are embedded as association lists and `HashSet`s as membership lists; `i64`
and `u64` saturating operations are embedded explicitly.
-/

/-- Characters of a string literal, the embedding of a Rust `&str`/`String`. -/
def str (s : String) : List Char := s.data

abbrev Str := List Char

/-- ASCII lowercasing of one character; embeds Rust `to_lowercase` /
`to_ascii_lowercase` on the ASCII inputs used throughout. -/
def charLower (c : Char) : Char :=
  if 'A' ≤ c ∧ c ≤ 'Z' then Char.ofNat (c.toNat + 32) else c

def lowerStr (s : Str) : Str := s.map charLower

/-- Embeds `str::eq_ignore_ascii_case`. -/
def eqIgnoreAsciiCase (a b : Str) : Bool := lowerStr a == lowerStr b

/-- `needle` is a prefix of `hay`; embeds `str::starts_with`. -/
def isPrefixStr : Str → Str → Bool
  | [], _ => true
  | _ :: _, [] => false
  | a :: as', b :: bs => a == b && isPrefixStr as' bs

/-- `hay` contains `needle` as a contiguous substring; embeds `str::contains`. -/
def containsSub : Str → Str → Bool
  | [], needle => isPrefixStr needle []
  | h :: t, needle => isPrefixStr needle (h :: t) || containsSub t needle

/-- Embeds `str::trim_start`. -/
def trimStartStr (s : Str) : Str := s.dropWhile Char.isWhitespace

/-- Embeds `str::trim_end`. -/
def trimEndStr (s : Str) : Str := (s.reverse.dropWhile Char.isWhitespace).reverse

/-- Embeds `str::trim`. -/
def trimStr (s : Str) : Str := trimEndStr (trimStartStr s)

/-- Space-joining of tokens; embeds `Vec<String>::join(" ")`. -/
def joinSpace : List Str → Str
  | [] => []
  | [t] => t
  | t :: rest => t ++ ' ' :: joinSpace rest

def intToStr (i : Int) : Str :=
  match i with
  | .ofNat n => Nat.toDigits 10 n
  | .negSucc n => '-' :: Nat.toDigits 10 (n + 1)

def I64_MAX : Int := 2 ^ 63 - 1

def I64_MIN : Int := -(2 ^ 63)

/-- Embeds `i64::saturating_add`. -/
def satAddI64 (a b : Int) : Int := min (max (a + b) I64_MIN) I64_MAX

/-- Embeds `i64::saturating_mul`. -/
def satMulI64 (a b : Int) : Int := min (max (a * b) I64_MIN) I64_MAX

def U64_MAX : Nat := 2 ^ 64 - 1

/-- Embeds `u64::saturating_add`. -/
def satAddU64 (a b : Nat) : Nat := min (a + b) U64_MAX

/-- Embeds `HashMap::get`. -/
def assocLookup {α : Type} (key : Str) : List (Str × α) → Option α
  | [] => none
  | (k, v) :: rest => if k == key then some v else assocLookup key rest

/-- Embeds `HashMap::insert` (replace the binding of an existing key). -/
def assocInsert {α : Type} (key : Str) (v : α) : List (Str × α) → List (Str × α)
  | [] => [(key, v)]
  | (k, w) :: rest => if k == key then (k, v) :: rest else (k, w) :: assocInsert key v rest

/-- Embeds `HashSet::contains` / `HashSet::get` on a membership list. -/
def setContains (s : List Str) (x : Str) : Bool := s.any (· == x)

/-- Embeds `Ord::cmp` on `i64`. -/
def compareInt (a b : Int) : Ordering :=
  if a < b then .lt else if a = b then .eq else .gt

/-- Embeds `Ord::cmp` on Rust strings (UTF-8 byte order equals codepoint
order, so codepoint-wise lexicographic comparison is faithful). -/
def compareStr : Str → Str → Ordering
  | [], [] => .eq
  | [], _ :: _ => .lt
  | _ :: _, [] => .gt
  | a :: as', b :: bs =>
    match compareInt a.toNat b.toNat with
    | .eq => compareStr as' bs
    | o => o

/-- Insertion step of a stable ascending sort: `x` is placed before the first
element strictly greater than it, so equal elements keep their input order,
as Rust's stable `sort_by` guarantees. -/
def insertOrd {α : Type} (cmp : α → α → Ordering) (x : α) : List α → List α
  | [] => [x]
  | y :: ys => if cmp x y = .gt then y :: insertOrd cmp x ys else x :: y :: ys

/-- Embeds `slice::sort_by` (stable, ascending by the comparator). -/
def sortByOrd {α : Type} (cmp : α → α → Ordering) : List α → List α
  | [] => []
  | x :: xs => insertOrd cmp x (sortByOrd cmp xs)

/-! ## Data model (src/model.rs) -/

inductive CommandSource where
  | Config
  | Provider (name : Str)
deriving DecidableEq, Repr

inductive ParamType where
  | Value
  | Flag
deriving DecidableEq, Repr

structure ParamSpec where
  name : Str
  kind : ParamType
  prompt : Str
  placeholder : Option Str
  default_value : Option Str
  value_value : Option Str
  default_flag : Option Bool
  value_flag : Option Bool
  required : Bool
  prompt_in_tui : Bool
deriving DecidableEq, Repr

/-- Embeds `ParamSpec::requires_input`. -/
def ParamSpec.requires_input (p : ParamSpec) : Bool :=
  match p.kind with
  | .Value => p.value_value.isNone && (p.prompt_in_tui || p.required || p.default_value.isNone)
  | .Flag => p.value_flag.isNone

/-- Embeds `ParamSpec::flag_token`. -/
def ParamSpec.flag_token (p : ParamSpec) : Str :=
  match p.name with
  | '-' :: _ => p.name
  | _ => '-' :: '-' :: p.name

structure CommandEntry where
  name : Str
  description : Option Str
  template : Str
  params : List ParamSpec
  source : CommandSource
  working_dir : Option Str
deriving DecidableEq, Repr

def defaultParamSpec : ParamSpec :=
  ⟨[], .Value, [], none, none, none, none, none, false, false⟩

def defaultCommandEntry : CommandEntry :=
  ⟨[], none, [], [], .Config, none⟩

/-- The loop of Rust `str::replace` (left-to-right, non-overlapping), with an
explicit fuel argument so the recursion is structural (each step consumes at
least one input character, so `s.length` fuel always suffices and the `0`
case is unreachable). -/
def replaceAllFuel : Nat → Str → Str → Str → Str
  | 0, s, _, _ => s
  | _ + 1, s, [], _ => s
  | _ + 1, [], _ :: _, _ => []
  | fuel + 1, c :: rest, n :: ns, repl =>
    if isPrefixStr (n :: ns) (c :: rest) then
      repl ++ replaceAllFuel fuel ((c :: rest).drop (n :: ns).length) (n :: ns) repl
    else
      c :: replaceAllFuel fuel rest (n :: ns) repl

/-- Rust `str::replace`.  An empty needle never occurs at the call site
(`"{{" ++ key ++ "}}"`), so that case just returns the input. -/
def replaceAll (s needle repl : Str) : Str := replaceAllFuel s.length s needle repl

/-- Embeds `render_template` (model.rs): every collected value replaces all
occurrences of its placeholder by literal replacement.  `HashMap` iteration
order is embedded as the association-list order. -/
def render_template (template : Str) (params : List (Str × Str)) : Str :=
  params.foldl
    (fun output kv => replaceAll output ('\x7b' :: '\x7b' :: kv.1 ++ ['\x7d', '\x7d']) kv.2)
    template

/-! ## Application state (src/app.rs) -/

inductive ChatLineKind where
  | Info
  | Command
  | Stdout
  | Stderr
deriving DecidableEq, Repr

structure ChatLine where
  kind : ChatLineKind
  text : Str
deriving DecidableEq, Repr

inductive ActivePaneE where
  | Commands
  | Session
deriving DecidableEq, Repr

def MAX_CHAT_LINES : Nat := 600

inductive SearchItem where
  | Command (index : Nat)
  | Internal (index : Nat)
deriving DecidableEq, Repr

structure RankingSettings where
  usage_enabled : Bool
  usage_weight : Int
deriving DecidableEq, Repr

structure PromptState where
  command_index : Nat
  pending_params : List Nat
  current_param : Nat
  input : Str
  values : List (Str × Str)
  return_to_tui : Bool
deriving DecidableEq, Repr

structure InternalPromptState where
  command_index : Nat
  input : Str
deriving DecidableEq, Repr

inductive ModeE where
  | Search
  | Prompt (p : PromptState)
  | InternalPrompt (p : InternalPromptState)
deriving DecidableEq, Repr

structure RunRequest where
  display_name : Str
  command_line : Str
  working_dir : Option Str
  usage_key : Str
  return_to_tui : Bool
deriving DecidableEq, Repr

inductive InternalCommandE where
  | Reload
  | Init (force : Bool)
  | Unknown (name : Str)
deriving DecidableEq, Repr

inductive UiActionE where
  | None
  | Quit
  | Run (request : RunRequest)
  | RunInternal (command : InternalCommandE)
deriving DecidableEq, Repr

inductive InternalCommandKind where
  | Reload
  | Init
deriving DecidableEq, Repr

structure InternalCommandDef where
  name : Str
  description : Str
  kind : InternalCommandKind
  default_force : Bool
deriving DecidableEq, Repr

/-- The fixed internal-command list built in `AppState::new`. -/
def internal_commands : List InternalCommandDef :=
  [ { name := str "/init", description := str "Create default config file",
      kind := .Init, default_force := false },
    { name := str "/reload", description := str "Reload config and providers",
      kind := .Reload, default_force := false } ]

/-- The fields of `AppState` that the embedded operations read or write.
`matcher` is passed to the operations as an explicit function argument;
purely visual fields (spinner index, help flag) and the runtime paths are
outside the embedded claims.  `store_writes` counts the
`persist_usage_store` calls performed by `record_usage` (the on-disk
rewrite). -/
structure AppStateE where
  commands : List CommandEntry
  filtered : List SearchItem
  selected : Nat
  query : Str
  query_cursor : Nat
  mode : ModeE
  chat : List ChatLine
  provider_aliases : List (Str × Str)
  provider_alias_by_name : List (Str × Str)
  provider_names_without_alias : List Str
  ranking : RankingSettings
  usage_counts : List (Str × Nat)
  store_writes : Nat
  is_loading : Bool
  loading_label : Option Str
  active_pane : ActivePaneE
  session_scroll : Nat
deriving DecidableEq, Repr

/-- Embeds `command_provider_name`. -/
def command_provider_name (c : CommandEntry) : Str :=
  match c.source with
  | .Config => str "config"
  | .Provider name => name

/-- Embeds `command_usage_key`: `"{provider}::{name}"`. -/
def command_usage_key (c : CommandEntry) : Str :=
  command_provider_name c ++ str "::" ++ c.name

/-- Embeds the free function `provider_names_without_alias` (the `HashSet` is
embedded as a list with membership semantics). -/
def provider_names_without_alias (commands : List CommandEntry)
    (provider_alias_by_name : List (Str × Str)) : List Str :=
  ((commands.map command_provider_name).filter
    (fun provider => (assocLookup provider provider_alias_by_name).isNone)).map lowerStr

/-- Embeds `AppState::usage_boost_for_command`. -/
def usage_boost_for_command (ranking : RankingSettings) (usage_counts : List (Str × Nat))
    (c : CommandEntry) : Int :=
  if !ranking.usage_enabled then 0
  else
    let usage := (assocLookup (command_usage_key c) usage_counts).getD 0
    satMulI64 (min (usage : Int) I64_MAX) (max ranking.usage_weight 0)

/-! ## Session log (src/app.rs `push_line`) -/

/-- Embeds `AppState::push_line`: append, reset the scroll when the command
pane is active, then evict FIFO down to `MAX_CHAT_LINES` adjusting the scroll
by `saturating_sub` (`Nat` subtraction). -/
def push_line (st : AppStateE) (kind : ChatLineKind) (text : Str) : AppStateE :=
  let chat := st.chat ++ [⟨kind, text⟩]
  let scroll := if st.active_pane = .Commands then 0 else st.session_scroll
  if chat.length > MAX_CHAT_LINES then
    let overflow := chat.length - MAX_CHAT_LINES
    { st with chat := chat.drop overflow, session_scroll := scroll - overflow }
  else
    { st with chat := chat, session_scroll := scroll }

def push_info (st : AppStateE) (text : Str) : AppStateE := push_line st .Info text

def push_command (st : AppStateE) (text : Str) : AppStateE := push_line st .Command text

def push_error (st : AppStateE) (text : Str) : AppStateE := push_line st .Stderr text

/-- Embeds `AppState::record_usage`: bump the `u64` counter (saturating) and
rewrite the persisted store. -/
def record_usage (st : AppStateE) (key : Str) : AppStateE :=
  let current := (assocLookup key st.usage_counts).getD 0
  { st with usage_counts := assocInsert key (satAddU64 current 1) st.usage_counts,
            store_writes := st.store_writes + 1 }

def start_loading (st : AppStateE) (label : Str) : AppStateE :=
  { st with is_loading := true, loading_label := some label }

def stop_loading (st : AppStateE) : AppStateE :=
  { st with is_loading := false, loading_label := none }

/-! ## Match & rank engine (src/app.rs) -/

/-- Embeds `tokenize_for_match`: lowercase alphanumeric runs.  The auxiliary
accumulates the current run in reverse. -/
def tokenizeAux : Str → Str → List Str
  | [], acc => if acc = [] then [] else [acc.reverse]
  | c :: rest, acc =>
    if c.isAlphanum then tokenizeAux rest (c :: acc)
    else if acc = [] then tokenizeAux rest []
    else acc.reverse :: tokenizeAux rest []

def tokenize_for_match (raw : Str) : List Str :=
  (tokenizeAux raw []).map lowerStr

/-- Embeds `token_match_quality`: 2 exact, 1 prefix/substring, 0 none. -/
def token_match_quality (token term : Str) : Int :=
  if token == term then 2
  else if isPrefixStr term token || containsSub token term then 1
  else 0

/-- The cursor loop of `terms_in_order`: each query term consumes name tokens
from the cursor until one matches. -/
def termsInOrderAux : List Str → List Str → Bool
  | [], _ => true
  | _ :: _, [] => false
  | q :: qs, n :: ns =>
    if token_match_quality n q > 0 then termsInOrderAux qs ns
    else termsInOrderAux (q :: qs) ns

/-- Embeds `terms_in_order`. -/
def terms_in_order (name_terms query_terms : List Str) : Bool :=
  if query_terms = [] then false else termsInOrderAux query_terms name_terms

/-- Element-wise window match at the front (the inner loop of
`terms_contiguous`). -/
def windowMatches : List Str → List Str → Bool
  | _, [] => true
  | [], _ :: _ => false
  | n :: ns, q :: qs => token_match_quality n q > 0 && windowMatches ns qs

/-- Embeds `terms_contiguous`. -/
def terms_contiguous (name_terms query_terms : List Str) : Bool :=
  if query_terms = [] ∨ query_terms.length > name_terms.length then false
  else (List.range (name_terms.length - query_terms.length + 1)).any
    (fun start => windowMatches (name_terms.drop start) query_terms)

/-- Modelled from the spec: the fuzzy matcher (`SkimMatcherV2::fuzzy_match`
of the external `fuzzy_matcher` crate, not part of this repository) is
"standard skip-penalized ordered-subsequence scoring: higher for longer
contiguous matched runs, lower for more skips".  This model matches the
pattern greedily as an ordered subsequence: 16 per matched character, 8 per
contiguous matched pair, minus 1 per skipped haystack character, and `None`
(embedded as the `unwrap_or_default` value 0) when the pattern is not a
subsequence. -/
def fuzzyRun : Str → Str → Bool → Option Int
  | _, [], _ => some 0
  | [], _ :: _, _ => none
  | h :: hs, p :: ps, prev =>
    if h = p then (fuzzyRun hs ps true).map (· + 16 + if prev then 8 else 0)
    else (fuzzyRun hs (p :: ps) false).map (· - 1)

def fuzzyScore (haystack pat : Str) : Int := (fuzzyRun haystack pat false).getD 0

/-- The lowercased name-plus-description haystack built at the top of
`score_command_match`. -/
def command_match_haystack (command : CommandEntry) : Str :=
  lowerStr command.name ++
    (match command.description with
     | some desc => ' ' :: lowerStr desc
     | none => [])

structure HitCounts where
  exactHits : Int
  looseHits : Int
  coverageHits : Int
  descriptionHits : Int
deriving DecidableEq, Repr

/-- Quality of the first name token with positive quality (the `break` in the
per-term loop of `score_command_match`). -/
def firstTokenQuality : List Str → Str → Int
  | [], _ => 0
  | token :: rest, term =>
    if token_match_quality token term > 0 then token_match_quality token term
    else firstTokenQuality rest term

/-- The per-term hit counting loop of `score_command_match` (`partial` hits
of the source are named `looseHits` here).  The source accumulates
left-to-right; integer sums are order-independent. -/
def countHits (name_terms haystack_terms : List Str) : List Str → HitCounts
  | [] => ⟨0, 0, 0, 0⟩
  | term :: rest =>
    let h := countHits name_terms haystack_terms rest
    let q := firstTokenQuality name_terms term
    if q = 2 then { h with exactHits := h.exactHits + 1, coverageHits := h.coverageHits + 1 }
    else if q = 1 then { h with looseHits := h.looseHits + 1, coverageHits := h.coverageHits + 1 }
    else if haystack_terms.any (fun token => token_match_quality token term > 0) then
      { h with coverageHits := h.coverageHits + 1, descriptionHits := h.descriptionHits + 1 }
    else h

structure MatchScore where
  total : Int
  fuzzy : Int
deriving DecidableEq, Repr

/-- Embeds `score_command_match`; the external matcher is the argument `fm`
(applied to the haystack and the lowercased query, with the
`unwrap_or_default` already folded in: a failed match is the score 0). -/
def score_command_match (fm : Str → Str → Int) (query : Str) (query_terms : List Str)
    (command : CommandEntry) : Option MatchScore :=
  let haystack := command_match_haystack command
  let normalized_query := lowerStr query
  let fuzzy := fm haystack normalized_query
  if query_terms = [] then some ⟨fuzzy * 10, fuzzy⟩
  else
    let name_terms := tokenize_for_match command.name
    let haystack_terms := tokenize_for_match haystack
    let hits := countHits name_terms haystack_terms query_terms
    if fuzzy = 0 ∧ hits.coverageHits = 0 then none
    else
      let all_terms_in_name := query_terms.all (fun term =>
        name_terms.any (fun token => token_match_quality token term > 0))
      let ordered_in_name := terms_in_order name_terms query_terms
      let contiguous_in_name := terms_contiguous name_terms query_terms
      let query_phrase := joinSpace query_terms
      let normalized_name := joinSpace name_terms
      let phrase_match := query_phrase != [] && containsSub normalized_name query_phrase
      let total := fuzzy * 10
        + hits.exactHits * 12000 + hits.looseHits * 6000
        + hits.coverageHits * 10000 + hits.descriptionHits * 2500
        + (if all_terms_in_name then 35000 else 0)
        + (if ordered_in_name then 10000 else 0)
        + (if contiguous_in_name then 10000 else 0)
        + (if phrase_match then 15000 else 0)
      some ⟨total, fuzzy⟩

/-- Embeds `parse_query_provider_filter`: `(provider filter, residual query,
unknown-alias flag)`. -/
def parse_query_provider_filter (query : Str) (provider_aliases : List (Str × Str))
    (pnwa : List Str) : Option Str × Str × Bool :=
  match trimStartStr query with
  | ':' :: after =>
    let aliasPart := after.takeWhile (fun c => !c.isWhitespace)
    let remaining := trimStartStr (after.dropWhile (fun c => !c.isWhitespace))
    let aliasName := lowerStr (trimStr aliasPart)
    if aliasName = [] then (none, query, false)
    else
      match assocLookup aliasName provider_aliases with
      | some provider => (some provider, remaining, false)
      | none =>
        if setContains pnwa aliasName then (some aliasName, remaining, false)
        else (none, remaining, true)
  | _ => (none, query, false)

/-- Embeds `AppState::is_internal_query`. -/
def isInternalQuery (query : Str) : Bool :=
  match trimStartStr query with
  | '/' :: _ => true
  | _ => false

/-- The internal-command branch of `refresh_filtered`. -/
def internalResults (fm : Str → Str → Int) (query : Str) : List SearchItem :=
  let trimmed := trimStartStr query
  let internalQuery := trimStr (trimmed.dropWhile (· = '/'))
  let normalized := lowerStr internalQuery
  let scored := internal_commands.enum.filterMap (fun ic =>
    let haystack := lowerStr (ic.2.name ++ ' ' :: ic.2.description)
    let fuzzy : Int := if normalized = [] then 1 else fm haystack normalized
    if normalized.isEmpty || decide (fuzzy > 0) || containsSub haystack normalized then
      let contains_bonus : Int :=
        if !normalized.isEmpty && containsSub haystack normalized then 10000 else 0
      some (ic.1, satMulI64 fuzzy 10 + contains_bonus, ic.2.name)
    else none)
  let sorted := sortByOrd (fun a b =>
    match compareInt b.2.1 a.2.1 with
    | .eq => compareStr a.2.2 b.2.2
    | o => o) scored
  sorted.map (fun e => SearchItem.Internal e.1)

/-- The result list computed by `AppState::refresh_filtered` as a pure
function of the state fields it reads (the `let mut haystack` block in the
source's scored branch is dead code and is not reproduced). -/
def refreshResult (fm : Str → Str → Int) (query : Str) (commands : List CommandEntry)
    (provider_aliases : List (Str × Str)) (pnwa : List Str)
    (ranking : RankingSettings) (usage_counts : List (Str × Nat)) : List SearchItem :=
  if isInternalQuery query then internalResults fm query
  else
    match parse_query_provider_filter query provider_aliases pnwa with
    | (provider_filter, residual, unknown_alias) =>
      if unknown_alias then []
      else if residual = [] then
        let ordered := sortByOrd (fun a b =>
            match compareInt b.2.1 a.2.1 with
            | .eq => compareStr a.2.2 b.2.2
            | o => o)
          ((commands.enum.filter (fun ic =>
              match provider_filter with
              | none => true
              | some provider => eqIgnoreAsciiCase (command_provider_name ic.2) provider)).map
            (fun ic => (ic.1, usage_boost_for_command ranking usage_counts ic.2,
              lowerStr ic.2.name)))
        ordered.map (fun e => SearchItem.Command e.1)
      else
        let query_terms := tokenize_for_match residual
        let scored := commands.enum.filterMap (fun ic =>
          if (match provider_filter with
              | none => false
              | some provider => !eqIgnoreAsciiCase (command_provider_name ic.2) provider) then
            none
          else
            match score_command_match fm residual query_terms ic.2 with
            | none => none
            | some score =>
              some (ic.1,
                satAddI64 score.total (usage_boost_for_command ranking usage_counts ic.2),
                score.fuzzy, lowerStr ic.2.name))
        let sorted := sortByOrd (fun a b =>
          match compareInt b.2.1 a.2.1 with
          | .eq =>
            match compareInt b.2.2.1 a.2.2.1 with
            | .eq => compareStr a.2.2.2 b.2.2.2
            | o => o
          | o => o) scored
        sorted.map (fun e => SearchItem.Command e.1)

/-- Embeds `AppState::refresh_filtered`. -/
def refresh_filtered (fm : Str → Str → Int) (st : AppStateE) : AppStateE :=
  { st with
    filtered := refreshResult fm st.query st.commands st.provider_aliases
      st.provider_names_without_alias st.ranking st.usage_counts,
    selected := 0 }

/-! ## Parameter prompts and run requests (src/app.rs) -/

/-- Embeds `parse_flag_input`. -/
def parse_flag_input (input : Str) (default : Bool) : Option Bool :=
  let trimmed := trimStr input
  if trimmed = [] then some default
  else
    let t := lowerStr trimmed
    if t == str "y" || t == str "yes" || t == str "true" || t == str "1" || t == str "on" then
      some true
    else if t == str "n" || t == str "no" || t == str "false" || t == str "0" || t == str "off" then
      some false
    else none

/-- Embeds `AppState::build_run_request` (the source indexes
`self.commands[index]`, always in bounds at its call sites; embedded by
`getD`). -/
def build_run_request (fm : Str → Str → Int) (st : AppStateE) (index : Nat)
    (values : List (Str × Str)) (return_to_tui : Bool) : AppStateE × UiActionE :=
  let command := st.commands.getD index defaultCommandEntry
  let rendered := render_template command.template values
  if containsSub rendered (str "\x7b\x7b") && containsSub rendered (str "\x7d\x7d") then
    (push_info st (str "Command '" ++ command.name ++ str "' still has unresolved placeholders"),
      .None)
  else
    let st1 := { st with query := [], query_cursor := 0 }
    let st2 := refresh_filtered fm st1
    (st2, .Run {
      display_name := command.name
      command_line := rendered
      working_dir := command.working_dir
      usage_key := command_usage_key command
      return_to_tui := return_to_tui })

/-- The parameter-collection completion step: both completion sites in
`on_prompt_key` execute `self.mode = Mode::Search` followed by
`self.build_run_request(index, values, return_to_tui)`. -/
def completeCollection (fm : Str → Str → Int) (st : AppStateE) (index : Nat)
    (values : List (Str × Str)) (return_to_tui : Bool) : AppStateE × UiActionE :=
  build_run_request fm { st with mode := .Search } index values return_to_tui

inductive KeyE where
  | Esc
  | Backspace
  | Enter
  | Char (c : Char)
  | Other
deriving DecidableEq, Repr

/-- Embeds `AppState::on_prompt_key`.  `KeyE.Char` stands for a character key
with no modifier (or shift only); every other keystroke is `KeyE.Other`.  The
initial `mem::replace(&mut self.mode, Mode::Search)` is embedded by setting
the mode to `Search` up front. -/
def on_prompt_key (fm : Str → Str → Int) (st0 : AppStateE) (key : KeyE) :
    AppStateE × UiActionE :=
  match st0.mode with
  | .Search => ({ st0 with mode := .Search }, .None)
  | .InternalPrompt _ => ({ st0 with mode := .Search }, .None)
  | .Prompt prompt0 =>
    let st := { st0 with mode := .Search }
    match key with
    | .Esc => (push_info st (str "Parameter entry canceled"), .None)
    | .Backspace =>
      ({ st with mode := .Prompt { prompt0 with input := prompt0.input.dropLast } }, .None)
    | .Char ch =>
      let param_index := prompt0.pending_params.getD prompt0.current_param 0
      let param := (st.commands.getD prompt0.command_index
        defaultCommandEntry).params.getD param_index defaultParamSpec
      if param.kind = .Flag then
        match parse_flag_input [ch] (param.default_flag.getD false) with
        | some flag_value =>
          let token := if flag_value then param.flag_token else []
          let values := assocInsert param.name token prompt0.values
          let next := prompt0.current_param + 1
          if next ≥ prompt0.pending_params.length then
            build_run_request fm { st with mode := .Search } prompt0.command_index values
              prompt0.return_to_tui
          else
            ({ st with mode := .Prompt { prompt0 with
                values := values, current_param := next, input := [] } }, .None)
        | none =>
          ({ st with mode := .Prompt { prompt0 with input := prompt0.input ++ [ch] } }, .None)
      else
        ({ st with mode := .Prompt { prompt0 with input := prompt0.input ++ [ch] } }, .None)
    | .Enter =>
      let param_index := prompt0.pending_params.getD prompt0.current_param 0
      let param := (st.commands.getD prompt0.command_index
        defaultCommandEntry).params.getD param_index defaultParamSpec
      let input := trimStr prompt0.input
      match param.kind with
      | .Value =>
        if input = [] ∧ param.default_value = none ∧ param.required then
          (push_info { st with mode := .Prompt prompt0 }
            (str "'" ++ param.name ++ str "' is required"), .None)
        else
          let value := if input = [] then
              (match param.default_value with
               | some d => d
               | none => [])
            else input
          let values := if value ≠ [] then assocInsert param.name value prompt0.values
            else prompt0.values
          let next := prompt0.current_param + 1
          if next ≥ prompt0.pending_params.length then
            build_run_request fm { st with mode := .Search } prompt0.command_index values
              prompt0.return_to_tui
          else
            ({ st with mode := .Prompt { prompt0 with
                values := values, current_param := next, input := [] } }, .None)
      | .Flag =>
        match parse_flag_input input (param.default_flag.getD false) with
        | none =>
          (push_info { st with mode := .Prompt prompt0 } (str "Please enter y or n"), .None)
        | some flag_value =>
          let token := if flag_value then param.flag_token else []
          let values := assocInsert param.name token prompt0.values
          let next := prompt0.current_param + 1
          if next ≥ prompt0.pending_params.length then
            build_run_request fm { st with mode := .Search } prompt0.command_index values
              prompt0.return_to_tui
          else
            ({ st with mode := .Prompt { prompt0 with
                values := values, current_param := next, input := [] } }, .None)
    | .Other => ({ st with mode := .Prompt prompt0 }, .None)

/-! ## Command execution (src/app.rs `execute_command`) -/

/-- The observable outcome of the subprocess run inside `execute_command`:
either the shell command failed to start (`run_shell_command_streaming` /
`run_shell_command_inherit` returned `Err`, e.g. a spawn failure), or it
started and finished with the given streamed lines, exit code and
interruption flag. -/
inductive RunOutcome where
  | SpawnFailure (msg : Str)
  | Finished (lines : List (ChatLineKind × Str)) (exit_code : Int) (interrupted : Bool)
deriving DecidableEq, Repr

/-- Embeds `execute_command` (terminal drawing omitted).  In the
non-`return_to_tui` branch the command line and outcome are printed to the
restored terminal, not the session log. -/
def execute_command (st0 : AppStateE) (request : RunRequest) (outcome : RunOutcome) :
    AppStateE :=
  let st := { st0 with mode := .Search }
  if !request.return_to_tui then
    record_usage st request.usage_key
  else
    let st := push_command st request.command_line
    let st := match request.working_dir with
      | some dir => push_info st (str "working directory: " ++ dir)
      | none => st
    let st := start_loading st request.display_name
    let st := match outcome with
      | .Finished lines _ _ => lines.foldl (fun acc kt => push_line acc kt.1 kt.2) st
      | .SpawnFailure _ => st
    let st := match outcome with
      | .Finished _ _ true => push_info st (str "Interrupted by user (Escape)")
      | .Finished _ code false => push_info st (str "exit code: " ++ intToStr code)
      | .SpawnFailure msg => push_error st (str "execution failed: " ++ msg)
    let st := stop_loading st
    record_usage st request.usage_key

/-! ## ANSI interpreter (src/app.rs `parse_ansi_spans`) -/

/-- The colors produced by the interpreter (`ratatui::style::Color`, an
external crate type, embedded structurally). -/
inductive ColorE where
  | Reset
  | Black
  | Red
  | Green
  | Yellow
  | Blue
  | Magenta
  | Cyan
  | Gray
  | DarkGray
  | LightRed
  | LightGreen
  | LightYellow
  | LightBlue
  | LightMagenta
  | LightCyan
  | White
  | Indexed (n : Nat)
  | Rgb (r g b : Nat)
deriving DecidableEq, Repr

/-- The style accumulated by the interpreter (`ratatui::style::Style`, an
external crate type; its modifier set is embedded by the four flags this
interpreter touches, with `22` clearing both BOLD and DIM). -/
structure StyleE where
  fg : Option ColorE
  bg : Option ColorE
  bold : Bool
  dim : Bool
  italic : Bool
  underline : Bool
deriving DecidableEq, Repr

/-- Embeds `map_ansi_color`. -/
def map_ansi_color (code : Nat) : ColorE :=
  if code = 30 then .Black
  else if code = 31 then .Red
  else if code = 32 then .Green
  else if code = 33 then .Yellow
  else if code = 34 then .Blue
  else if code = 35 then .Magenta
  else if code = 36 then .Cyan
  else if code = 37 then .Gray
  else if code = 90 then .DarkGray
  else if code = 91 then .LightRed
  else if code = 92 then .LightGreen
  else if code = 93 then .LightYellow
  else if code = 94 then .LightBlue
  else if code = 95 then .LightMagenta
  else if code = 96 then .LightCyan
  else if code = 97 then .White
  else .Reset

/-- Embeds `str::split(';')` (keeps empty parts). -/
def splitOnChar (sep : Char) : Str → List Str
  | [] => [[]]
  | c :: rest =>
    if c = sep then [] :: splitOnChar sep rest
    else
      match splitOnChar sep rest with
      | [] => [[c]]
      | t :: ts => (c :: t) :: ts

/-- Embeds `str::parse::<u16>()` on the digit/semicolon-free parts. -/
def parseU16 (s : Str) : Option Nat :=
  if s = [] then none
  else if s.all Char.isDigit then
    let n := s.foldl (fun acc c => acc * 10 + (c.toNat - '0'.toNat)) 0
    if n ≤ 65535 then some n else none
  else none

/-- One non-extended (`38`/`48`-free) parameter of the `apply_sgr_sequence`
loop; an unrecognized code leaves the style untouched. -/
def applySimpleSgr (d : StyleE) (dfg : ColorE) (code : Nat) (style : StyleE) : StyleE :=
  if code = 0 then d
  else if code = 1 then { style with bold := true }
  else if code = 3 then { style with italic := true }
  else if code = 4 then { style with underline := true }
  else if code = 22 then { style with bold := false, dim := false }
  else if code = 23 then { style with italic := false }
  else if code = 24 then { style with underline := false }
  else if 30 ≤ code ∧ code ≤ 37 then { style with fg := some (map_ansi_color code) }
  else if code = 39 then { style with fg := some dfg }
  else if 40 ≤ code ∧ code ≤ 47 then { style with bg := some (map_ansi_color (code - 10)) }
  else if code = 49 then { style with bg := some .Reset }
  else if 90 ≤ code ∧ code ≤ 97 then { style with fg := some (map_ansi_color code) }
  else if 100 ≤ code ∧ code ≤ 107 then { style with bg := some (map_ansi_color (code - 10)) }
  else style

/-- The extended color applied by a `38`/`48` parameter. -/
def applyExtendedColor (code : Nat) (color : ColorE) (style : StyleE) : StyleE :=
  if code = 38 then { style with fg := some color } else { style with bg := some color }

/-- The parameter loop of `apply_sgr_sequence`, with the `i += 2` / `i += 4`
lookahead for `38`/`48` embedded by list patterns (a `38`/`48` whose
lookahead is too short or neither `5` nor `2` is skipped, exactly as in the
source's fall-through). -/
def applySgrParams (d : StyleE) (dfg : ColorE) : List Nat → StyleE → StyleE
  | [], style => style
  | code :: 5 :: n :: rest2, style =>
    if code = 38 ∨ code = 48 then
      applySgrParams d dfg rest2 (applyExtendedColor code (.Indexed (min n 255)) style)
    else applySgrParams d dfg (5 :: n :: rest2) (applySimpleSgr d dfg code style)
  | code :: 2 :: r :: g :: b :: rest2, style =>
    if code = 38 ∨ code = 48 then
      applySgrParams d dfg rest2
        (applyExtendedColor code (.Rgb (min r 255) (min g 255) (min b 255)) style)
    else applySgrParams d dfg (2 :: r :: g :: b :: rest2) (applySimpleSgr d dfg code style)
  | code :: rest, style => applySgrParams d dfg rest (applySimpleSgr d dfg code style)

/-- Embeds `apply_sgr_sequence`: an empty sequence or one with only
unparseable parts is a full reset. -/
def apply_sgr_sequence (seq : Str) (style : StyleE) (d : StyleE) (dfg : ColorE) : StyleE :=
  if seq = [] then d
  else
    let params := (splitOnChar ';' seq).filterMap parseU16
    if params = [] then d
    else applySgrParams d dfg params style

mutual

/-- The outer `while let Some(ch) = chars.next()` loop of `parse_ansi_spans`
(current style, pending buffer): the condition is the source's
`ch == '\u{1b}' && matches!(chars.peek(), Some('['))`, with `rest.tail`
standing for the `chars.next()` that consumes the `[`; an escape character
not followed by `[` is buffered as visible text, exactly as in the source. -/
def parseAnsiAux (d : StyleE) (dfg : ColorE) : Str → StyleE → Str → List (Str × StyleE)
  | [], style, buffer => if buffer = [] then [] else [(buffer, style)]
  | c :: rest, style, buffer =>
    if c = '\x1b' ∧ rest.head? = some '[' then
      (if buffer = [] then [] else [(buffer, style)]) ++ parseSgrLoop d dfg rest.tail style []
    else parseAnsiAux d dfg rest style (buffer ++ [c])
termination_by cs _ _ => cs.length
decreasing_by all_goals (simp only [List.length_cons, List.length_tail]; omega)

/-- The inner escape-sequence loop of `parse_ansi_spans` (accumulated
parameter bytes): `m` applies the sequence, a digit or `;` accumulates, any
other byte abandons the sequence unapplied. -/
def parseSgrLoop (d : StyleE) (dfg : ColorE) : Str → StyleE → Str → List (Str × StyleE)
  | [], _, _ => []
  | c :: rest, style, seq =>
    if c = 'm' then parseAnsiAux d dfg rest (apply_sgr_sequence seq style d dfg) []
    else if c.isDigit || c = ';' then parseSgrLoop d dfg rest style (seq ++ [c])
    else parseAnsiAux d dfg rest style []
termination_by cs _ _ => cs.length
decreasing_by all_goals (simp only [List.length_cons]; omega)

end

/-- Embeds `parse_ansi_spans`: a line with no visible text still yields one
empty segment. -/
def parse_ansi_spans (text : Str) (default_style : StyleE) (default_fg : ColorE) :
    List (Str × StyleE) :=
  let spans := parseAnsiAux default_style default_fg text default_style []
  if spans = [] then [([], default_style)] else spans

/-! ## Query editing helpers (src/app.rs) -/

/-- UTF-8 byte length of a string, embedding `str::len`. -/
def utf8Len (s : Str) : Nat := s.foldr (fun c n => c.utf8Size + n) 0

/-- Embeds `str::char_indices` (byte offset of each character). -/
def charIndicesAux (offset : Nat) : Str → List (Nat × Char)
  | [] => []
  | c :: rest => (offset, c) :: charIndicesAux (offset + c.utf8Size) rest

def charIndices (s : Str) : List (Nat × Char) := charIndicesAux 0 s

/-- Embeds `byte_index_for_char`. -/
def byte_index_for_char (value : Str) (char_index : Nat) : Nat :=
  if char_index = 0 then 0
  else (((charIndices value).get? char_index).map Prod.fst).getD (utf8Len value)

/-- Rust `String::insert` at a byte index: `none` embeds the panic on an
out-of-range index or a non-boundary index. -/
def insertAtByteIdx (s : Str) (n : Nat) (c : Char) : Option Str :=
  if n = 0 then some (c :: s)
  else
    match s with
    | [] => none
    | h :: rest =>
      if h.utf8Size ≤ n then (insertAtByteIdx rest (n - h.utf8Size) c).map (h :: ·)
      else none

/-- Embeds `insert_char_at`. -/
def insert_char_at (value : Str) (char_index : Nat) (c : Char) : Option Str :=
  insertAtByteIdx value (byte_index_for_char value char_index) c

/-- Splitting a string at a byte index: `none` embeds a panic on a
non-boundary or out-of-range index. -/
def splitAtByte (s : Str) (n : Nat) : Option (Str × Str) :=
  if n = 0 then some ([], s)
  else
    match s with
    | [] => none
    | h :: rest =>
      if h.utf8Size ≤ n then (splitAtByte rest (n - h.utf8Size)).map (fun p => (h :: p.1, p.2))
      else none

/-- Rust `String::replace_range(start..stop, "")`: `none` embeds the panic on
an invalid range. -/
def removeByteRange (s : Str) (start stop : Nat) : Option Str :=
  if stop < start then none
  else
    match splitAtByte s start with
    | none => none
    | some (pre, suf) =>
      match splitAtByte suf (stop - start) with
      | none => none
      | some (_, post) => some (pre ++ post)

/-- Embeds `remove_char_at`; the `Bool` is the source's return value and
`none` embeds a panic (shown unreachable by the safety theorem). -/
def remove_char_at (value : Str) (char_index : Nat) : Option (Str × Bool) :=
  let start := byte_index_for_char value char_index
  if start ≥ utf8Len value then some (value, false)
  else
    (removeByteRange value start (byte_index_for_char value (char_index + 1))).map
      (fun v => (v, true))

/-! ## Concrete fixtures used by the theorems -/

/-- A provider catalog entry as built by the tests' `mock_command`, without a
description (the claims fix only the names). -/
def artisanEntry (name : String) : CommandEntry :=
  { name := str name, description := none, template := [], params := [],
    source := .Provider (str "artisan"), working_dir := none }

/-- The three-candidate catalog of the phrase-ranking claim. -/
def phraseCatalog : List CommandEntry :=
  [artisanEntry "artisan cache:clear", artisanEntry "artisan clear-compiled",
    artisanEntry "artisan cache:table"]

/-- The `default_ranking()` of the source's tests. -/
def defaultRanking : RankingSettings := ⟨true, 8000⟩

def emptyStyle : StyleE := ⟨none, none, false, false, false, false⟩

/-- A fresh application state with an empty catalog and log. -/
def baseAppState : AppStateE :=
  { commands := [], filtered := [], selected := 0, query := [], query_cursor := 0,
    mode := .Search, chat := [], provider_aliases := [], provider_alias_by_name := [],
    provider_names_without_alias := [], ranking := defaultRanking, usage_counts := [],
    store_writes := 0, is_loading := false, loading_label := none,
    active_pane := .Commands, session_scroll := 0 }

/-- The flag parameter of the tests' flag round trip: default `false`. -/
def deployFlagParam : ParamSpec :=
  { name := str "force", kind := .Flag, prompt := str "Use --force?", placeholder := none,
    default_value := none, value_value := none, default_flag := some false, value_flag := none,
    required := false, prompt_in_tui := true }

/-- The `deploy {{force}}` command of the tests' flag round trip. -/
def deployCommand : CommandEntry :=
  { name := str "deploy", description := none, template := str "deploy \x7b\x7bforce\x7d\x7d",
    params := [deployFlagParam], source := .Config, working_dir := none }

/-- The state in the middle of the flag prompt for `deployCommand`. -/
def deployPromptState : AppStateE :=
  { baseAppState with
    commands := [deployCommand]
    mode := .Prompt ⟨0, [0], 0, [], [], true⟩ }

/-- A run request as produced for `deployCommand`. -/
def deployRunRequest : RunRequest :=
  ⟨str "deploy", str "deploy", none, str "config::deploy", true⟩

/-- Aliases with provider `artisan` aliased to `a`. -/
def artisanAliases : List (Str × Str) := [(str "a", str "artisan")]

/-- The inverted alias map (`provider_alias_by_name`) for `artisanAliases`. -/
def artisanAliasByName : List (Str × Str) := [(str "artisan", str "a")]

/-- A state with a one-line session log and the session pane active. -/
def pushFixtureState : AppStateE :=
  { baseAppState with chat := [⟨.Info, str "hello"⟩], active_pane := .Session }

/-! ## Helper lemmas -/

theorem push_line_mode (st : AppStateE) (k : ChatLineKind) (t : Str) :
    (push_line st k t).mode = st.mode := by
  simp only [push_line]
  split <;> rfl

theorem push_line_usage_counts (st : AppStateE) (k : ChatLineKind) (t : Str) :
    (push_line st k t).usage_counts = st.usage_counts := by
  simp only [push_line]
  split <;> rfl

theorem push_line_store_writes (st : AppStateE) (k : ChatLineKind) (t : Str) :
    (push_line st k t).store_writes = st.store_writes := by
  simp only [push_line]
  split <;> rfl

theorem foldl_push_line_usage_counts (lines : List (ChatLineKind × Str)) (st : AppStateE) :
    (lines.foldl (fun acc kt => push_line acc kt.1 kt.2) st).usage_counts = st.usage_counts := by
  induction lines generalizing st with
  | nil => rfl
  | cons x xs ih => simp only [List.foldl_cons, ih, push_line_usage_counts]

theorem foldl_push_line_store_writes (lines : List (ChatLineKind × Str)) (st : AppStateE) :
    (lines.foldl (fun acc kt => push_line acc kt.1 kt.2) st).store_writes = st.store_writes := by
  induction lines generalizing st with
  | nil => rfl
  | cons x xs ih => simp only [List.foldl_cons, ih, push_line_store_writes]

/-! ## Claim theorems -/

/-- C1: for the catalog `["artisan cache:clear", "artisan clear-compiled",
"artisan cache:table"]`, both the query `"cache clear"` and the query
`"clear cache"` place `"artisan cache:clear"` (index 0) first in the ordered
result list produced by the composite scoring of `refresh_filtered` /
`score_command_match`. -/
theorem phrase_queries_rank_cache_clear_first :
    (refreshResult fuzzyScore (str "cache clear") phraseCatalog []
        (provider_names_without_alias phraseCatalog []) defaultRanking []).head? =
      some (.Command 0) ∧
    (refreshResult fuzzyScore (str "clear cache") phraseCatalog []
        (provider_names_without_alias phraseCatalog []) defaultRanking []).head? =
      some (.Command 0) ∧
    (phraseCatalog.getD 0 defaultCommandEntry).name = str "artisan cache:clear" := by
  decide

/-- C8: in the flag prompt for `deploy {{force}}` with default `false`,
Enter on empty input resolves to the default and the flag token is absent
from the rendered command line; a single `y` keystroke resolves immediately
(without Enter) and the token is present; a non-vocabulary character only
accumulates in the input buffer, and Enter on that invalid input re-prompts
the same parameter with a message. -/
theorem flag_prompt_roundtrip :
    (on_prompt_key fuzzyScore deployPromptState .Enter).2 =
      .Run ⟨str "deploy", str "deploy ", none, str "config::deploy", true⟩ ∧
    containsSub (str "deploy ") (str "--force") = false ∧
    (on_prompt_key fuzzyScore deployPromptState (.Char 'y')).2 =
      .Run ⟨str "deploy", str "deploy --force", none, str "config::deploy", true⟩ ∧
    containsSub (str "deploy --force") (str "--force") = true ∧
    (on_prompt_key fuzzyScore deployPromptState (.Char 'q')).2 = .None ∧
    (on_prompt_key fuzzyScore deployPromptState (.Char 'q')).1.mode =
      .Prompt ⟨0, [0], 0, str "q", [], true⟩ ∧
    (on_prompt_key fuzzyScore
      ((on_prompt_key fuzzyScore deployPromptState (.Char 'q')).1) .Enter).2 = .None ∧
    (on_prompt_key fuzzyScore
      ((on_prompt_key fuzzyScore deployPromptState (.Char 'q')).1) .Enter).1.mode =
      .Prompt ⟨0, [0], 0, str "q", [], true⟩ ∧
    ((on_prompt_key fuzzyScore
      ((on_prompt_key fuzzyScore deployPromptState (.Char 'q')).1) .Enter).1.chat.map
        ChatLine.text) = [str "Please enter y or n"] := by
  decide

/-- C2 (counterexample): after a spawn failure (`run_shell_command_streaming`
returning `Err`), `execute_command` still increments the usage counter under
the `"{provider}::{name}"` key and rewrites the store, contradicting the
claim that no usage is recorded after a spawn failure. -/
theorem usage_recorded_despite_spawn_failure :
    assocLookup (str "config::deploy")
        (execute_command deployPromptState deployRunRequest
          (.SpawnFailure (str "boom"))).usage_counts = some 1 ∧
    (execute_command deployPromptState deployRunRequest
        (.SpawnFailure (str "boom"))).store_writes = 1 ∧
    deployPromptState.usage_counts = [] ∧ deployPromptState.store_writes = 0 := by
  decide

/-- C2 (amended): `execute_command` increments the usage counter under the
`"{provider}::{name}"` key and rewrites the store after every execution
attempt — spawn failure, user interruption and normal exit alike. -/
theorem usage_recorded_for_every_outcome (st : AppStateE) (request : RunRequest)
    (outcome : RunOutcome) :
    (execute_command st request outcome).usage_counts =
      assocInsert request.usage_key
        (satAddU64 ((assocLookup request.usage_key st.usage_counts).getD 0) 1)
        st.usage_counts ∧
    (execute_command st request outcome).store_writes = st.store_writes + 1 := by
  unfold execute_command
  cases hb : request.return_to_tui with
  | false =>
    simp [record_usage]
  | true =>
    cases outcome with
    | SpawnFailure msg =>
      cases hw : request.working_dir <;>
        simp [record_usage, stop_loading, start_loading, push_info, push_command, push_error,
          push_line_usage_counts, push_line_store_writes, foldl_push_line_usage_counts,
          foldl_push_line_store_writes]
    | Finished lines code interrupted =>
      cases interrupted <;> cases hw : request.working_dir <;>
        simp [record_usage, stop_loading, start_loading, push_info, push_command, push_error,
          push_line_usage_counts, push_line_store_writes, foldl_push_line_usage_counts,
          foldl_push_line_store_writes]

/-- C9: filtering is deterministic — two states that agree on the query, the
catalog, the provider-alias data, the ranking settings and the usage counts
produce identical ordered result lists under `refresh_filtered`, whatever
their other fields (log, selection, scroll) are. -/
theorem filtering_deterministic (fm : Str → Str → Int) (st1 st2 : AppStateE)
    (hq : st1.query = st2.query) (hc : st1.commands = st2.commands)
    (ha : st1.provider_aliases = st2.provider_aliases)
    (hp : st1.provider_names_without_alias = st2.provider_names_without_alias)
    (hr : st1.ranking = st2.ranking) (hu : st1.usage_counts = st2.usage_counts) :
    (refresh_filtered fm st1).filtered = (refresh_filtered fm st2).filtered := by
  simp only [refresh_filtered, hq, hc, ha, hp, hr, hu]

/-- Witness for C9: two states differing in log, selection and scroll yield
the same filtered list. -/
theorem filtering_deterministic_witness :
    (refresh_filtered fuzzyScore
      { baseAppState with
        commands := phraseCatalog
        query := str "cache"
        chat := [⟨.Info, str "noise"⟩]
        selected := 3 }).filtered =
    (refresh_filtered fuzzyScore
      { baseAppState with
        commands := phraseCatalog
        query := str "cache"
        session_scroll := 7
        active_pane := .Session }).filtered :=
  filtering_deterministic fuzzyScore _ _ rfl rfl rfl rfl rfl rfl

/-- C5: `push_line` keeps the session log at or below the 600-entry cap,
evicts exactly the oldest entry (FIFO) when the log is full, and keeps the
scroll offset within the valid range `[0, len - 1]`. -/
theorem session_log_bounded (st : AppStateE) (k : ChatLineKind) (t : Str)
    (h : st.session_scroll ≤ st.chat.length - 1) :
    (push_line st k t).chat.length = min (st.chat.length + 1) MAX_CHAT_LINES ∧
    (st.chat.length = MAX_CHAT_LINES →
      (push_line st k t).chat = st.chat.drop 1 ++ [⟨k, t⟩]) ∧
    (push_line st k t).session_scroll ≤ (push_line st k t).chat.length - 1 := by
  simp only [push_line, MAX_CHAT_LINES]
  split_ifs with hpane hlen hlen2 <;>
    refine ⟨?_, fun hx => ?_, ?_⟩ <;>
    simp_all [List.length_append] <;>
    first
      | omega
      | (rcases hc : st.chat with _ | ⟨a, l⟩ <;> simp_all)

/-- Witness for C5 at a one-line log with the session pane active. -/
theorem session_log_bounded_witness :
    pushFixtureState.session_scroll ≤ pushFixtureState.chat.length - 1 ∧
    ((push_line pushFixtureState .Info (str "next")).chat.length =
        min (pushFixtureState.chat.length + 1) MAX_CHAT_LINES ∧
      (pushFixtureState.chat.length = MAX_CHAT_LINES →
        (push_line pushFixtureState .Info (str "next")).chat =
          pushFixtureState.chat.drop 1 ++ [⟨.Info, str "next"⟩]) ∧
      (push_line pushFixtureState .Info (str "next")).session_scroll ≤
        (push_line pushFixtureState .Info (str "next")).chat.length - 1) :=
  ⟨by decide, session_log_bounded pushFixtureState .Info (str "next") (by decide)⟩

/-- C4: whenever parameter collection completes (`self.mode = Mode::Search`
followed by `build_run_request`), the command line is the template with
every collected value substituted for all occurrences of its placeholder
(`render_template`); if the rendered line still contains an unresolved
placeholder, no run request is produced, the explanatory message is pushed
to the session log, and the state machine is in Search mode. -/
theorem completion_renders_template_or_aborts (fm : Str → Str → Int) (st : AppStateE)
    (index : Nat) (values : List (Str × Str)) (rtt : Bool) :
    (completeCollection fm st index values rtt).1.mode = .Search ∧
    ((containsSub (render_template
          (st.commands.getD index defaultCommandEntry).template values) (str "\x7b\x7b") &&
        containsSub (render_template
          (st.commands.getD index defaultCommandEntry).template values) (str "\x7d\x7d")) = true →
      (completeCollection fm st index values rtt).2 = .None ∧
      (completeCollection fm st index values rtt).1 =
        push_info { st with mode := .Search }
          (str "Command '" ++ (st.commands.getD index defaultCommandEntry).name ++
            str "' still has unresolved placeholders")) ∧
    ((containsSub (render_template
          (st.commands.getD index defaultCommandEntry).template values) (str "\x7b\x7b") &&
        containsSub (render_template
          (st.commands.getD index defaultCommandEntry).template values) (str "\x7d\x7d")) = false →
      (completeCollection fm st index values rtt).2 =
        .Run ⟨(st.commands.getD index defaultCommandEntry).name,
          render_template (st.commands.getD index defaultCommandEntry).template values,
          (st.commands.getD index defaultCommandEntry).working_dir,
          command_usage_key (st.commands.getD index defaultCommandEntry), rtt⟩) := by
  unfold completeCollection build_run_request
  by_cases hcond : (containsSub (render_template
        (st.commands.getD index defaultCommandEntry).template values) (str "\x7b\x7b") &&
      containsSub (render_template
        (st.commands.getD index defaultCommandEntry).template values) (str "\x7d\x7d")) = true
  · rw [if_pos hcond]
    refine ⟨?_, fun _ => ⟨rfl, rfl⟩, fun hfalse => ?_⟩
    · simp only [push_info]
      exact push_line_mode _ _ _
    · exact Bool.noConfusion (hcond.symm.trans hfalse)
  · rw [if_neg hcond]
    exact ⟨rfl, fun htrue => absurd htrue hcond, fun _ => rfl⟩

/-- C7 (counterexample): the non-empty query `"!"` has no alphanumeric term,
its fuzzy score against the candidate `"foo"` is zero and no term achieved a
coverage match, yet `score_command_match` returns `some` (the candidate is
included) rather than excluding it as the claim requires. -/
theorem punctuation_query_included_despite_no_match :
    str "!" ≠ [] ∧
    tokenize_for_match (str "!") = [] ∧
    fuzzyScore (command_match_haystack (artisanEntry "foo")) (lowerStr (str "!")) = 0 ∧
    score_command_match fuzzyScore (str "!") (tokenize_for_match (str "!"))
      (artisanEntry "foo") = some ⟨0, 0⟩ := by
  decide

/-- C7 (amended): for every query with at least one alphanumeric term and
every candidate, `score_command_match` excludes the candidate (returns
`none`) if and only if the fuzzy score is zero and no query term achieved a
coverage match; otherwise the candidate is scored (appears in the results). -/
theorem exclusion_iff_no_fuzzy_and_no_coverage (fm : Str → Str → Int) (query : Str)
    (command : CommandEntry) (h : tokenize_for_match query ≠ []) :
    score_command_match fm query (tokenize_for_match query) command = none ↔
      (fm (command_match_haystack command) (lowerStr query) = 0 ∧
        (countHits (tokenize_for_match command.name)
          (tokenize_for_match (command_match_haystack command))
          (tokenize_for_match query)).coverageHits = 0) := by
  simp only [score_command_match]
  rw [if_neg h]
  by_cases hc : (fm (command_match_haystack command) (lowerStr query) = 0 ∧
      (countHits (tokenize_for_match command.name)
        (tokenize_for_match (command_match_haystack command))
        (tokenize_for_match query)).coverageHits = 0)
  · rw [if_pos hc]
    simp [hc]
  · rw [if_neg hc]
    simp [hc]

/-- Witness for C7 (amended) at the query `"cache"` and the candidate
`"artisan cache:clear"`. -/
theorem exclusion_iff_witness :
    tokenize_for_match (str "cache") ≠ [] ∧
    (score_command_match fuzzyScore (str "cache") (tokenize_for_match (str "cache"))
        (artisanEntry "artisan cache:clear") = none ↔
      (fuzzyScore (command_match_haystack (artisanEntry "artisan cache:clear"))
          (lowerStr (str "cache")) = 0 ∧
        (countHits (tokenize_for_match (artisanEntry "artisan cache:clear").name)
          (tokenize_for_match (command_match_haystack (artisanEntry "artisan cache:clear")))
          (tokenize_for_match (str "cache"))).coverageHits = 0)) :=
  ⟨by decide,
    exclusion_iff_no_fuzzy_and_no_coverage fuzzyScore (str "cache")
      (artisanEntry "artisan cache:clear") (by decide)⟩

theorem dropWhile_eq_self_of_all {p : Char → Bool} (l : Str) (h : ∀ c ∈ l, p c = false) :
    l.dropWhile p = l := by
  cases l with
  | nil => rfl
  | cons a t =>
    rw [List.dropWhile_cons, if_neg (by simp [h a (List.mem_cons_self a t)])]

theorem takeWhile_append_of_all {p : Char → Bool} (sel : Str) (x : Char) (rest : Str)
    (hsel : ∀ c ∈ sel, p c = true) (hx : p x = false) :
    (sel ++ x :: rest).takeWhile p = sel := by
  induction sel with
  | nil => simp [List.takeWhile_cons, hx]
  | cons a t ih =>
    simp only [List.cons_append, List.takeWhile_cons,
      if_pos (hsel a (List.mem_cons_self a t))]
    rw [ih (fun c hc => hsel c (List.mem_cons_of_mem a hc))]

theorem dropWhile_append_of_all {p : Char → Bool} (sel : Str) (x : Char) (rest : Str)
    (hsel : ∀ c ∈ sel, p c = true) (hx : p x = false) :
    (sel ++ x :: rest).dropWhile p = x :: rest := by
  induction sel with
  | nil => simp [List.dropWhile_cons, hx]
  | cons a t ih =>
    simp only [List.cons_append, List.dropWhile_cons,
      if_pos (hsel a (List.mem_cons_self a t))]
    exact ih (fun c hc => hsel c (List.mem_cons_of_mem a hc))

theorem trimStr_of_no_ws (sel : Str) (h : ∀ c ∈ sel, c.isWhitespace = false) :
    trimStr sel = sel := by
  unfold trimStr trimStartStr trimEndStr
  rw [dropWhile_eq_self_of_all sel h,
    dropWhile_eq_self_of_all sel.reverse (fun c hc => h c (List.mem_reverse.mp hc)),
    List.reverse_reverse]

/-- C6: a query `":sel rest"` resolves the selector against configured
aliases first, falls back to raw provider names lacking an alias, and an
unresolvable selector — including the raw name of a provider that has been
given an alias (the concrete third conjunct) — yields an empty result list
from `refresh_filtered`, not an error. -/
theorem provider_selector_resolution (aliases : List (Str × Str)) (pnwa : List Str)
    (sel rest : Str) (fm : Str → Str → Int) (commands : List CommandEntry)
    (ranking : RankingSettings) (usage : List (Str × Nat))
    (hsel : sel ≠ []) (hws : ∀ c ∈ sel, c.isWhitespace = false) :
    (parse_query_provider_filter (':' :: (sel ++ ' ' :: rest)) aliases pnwa =
      match assocLookup (lowerStr sel) aliases with
      | some provider => (some provider, trimStartStr rest, false)
      | none =>
        if setContains pnwa (lowerStr sel) then (some (lowerStr sel), trimStartStr rest, false)
        else (none, trimStartStr rest, true)) ∧
    (assocLookup (lowerStr sel) aliases = none → setContains pnwa (lowerStr sel) = false →
      refreshResult fm (':' :: (sel ++ ' ' :: rest)) commands aliases pnwa ranking usage = []) ∧
    refreshResult fuzzyScore (str ":artisan cache") phraseCatalog artisanAliases
      (provider_names_without_alias phraseCatalog artisanAliasByName) defaultRanking [] = [] := by
  have h1 : trimStartStr (':' :: (sel ++ ' ' :: rest)) = ':' :: (sel ++ ' ' :: rest) := by
    rw [trimStartStr, List.dropWhile_cons, if_neg (by decide)]
  have htake : (sel ++ ' ' :: rest).takeWhile (fun c => !c.isWhitespace) = sel :=
    takeWhile_append_of_all sel ' ' rest (fun c hc => by simp [hws c hc]) (by decide)
  have hdrop : (sel ++ ' ' :: rest).dropWhile (fun c => !c.isWhitespace) = ' ' :: rest :=
    dropWhile_append_of_all sel ' ' rest (fun c hc => by simp [hws c hc]) (by decide)
  have htrim : trimStartStr (' ' :: rest) = trimStartStr rest := by
    rw [trimStartStr, trimStartStr, List.dropWhile_cons, if_pos (by decide)]
  have hnil : ¬ lowerStr sel = [] := by
    simp only [lowerStr, List.map_eq_nil_iff]
    exact hsel
  have hparse : parse_query_provider_filter (':' :: (sel ++ ' ' :: rest)) aliases pnwa =
      match assocLookup (lowerStr sel) aliases with
      | some provider => (some provider, trimStartStr rest, false)
      | none =>
        if setContains pnwa (lowerStr sel) then (some (lowerStr sel), trimStartStr rest, false)
        else (none, trimStartStr rest, true) := by
    simp only [parse_query_provider_filter, h1, htake, hdrop, htrim,
      trimStr_of_no_ws sel hws, if_neg hnil]
  refine ⟨hparse, fun hlk hsc => ?_, by decide⟩
  have hint : isInternalQuery (':' :: (sel ++ ' ' :: rest)) = false := by
    unfold isInternalQuery
    rw [h1]
    rfl
  simp [refreshResult, hint, hparse, hlk, hsc]

/-- Witness for C6: the selector `a` (the alias of provider `artisan`)
with residual query `cache`. -/
theorem provider_selector_resolution_witness :
    (str "a" ≠ [] ∧ ∀ c ∈ str "a", c.isWhitespace = false) ∧
    ((parse_query_provider_filter (':' :: (str "a" ++ ' ' :: str "cache")) artisanAliases
        (provider_names_without_alias phraseCatalog artisanAliasByName) =
      match assocLookup (lowerStr (str "a")) artisanAliases with
      | some provider => (some provider, trimStartStr (str "cache"), false)
      | none =>
        if setContains (provider_names_without_alias phraseCatalog artisanAliasByName)
            (lowerStr (str "a")) then
          (some (lowerStr (str "a")), trimStartStr (str "cache"), false)
        else (none, trimStartStr (str "cache"), true)) ∧
    (assocLookup (lowerStr (str "a")) artisanAliases = none →
      setContains (provider_names_without_alias phraseCatalog artisanAliasByName)
        (lowerStr (str "a")) = false →
      refreshResult fuzzyScore (':' :: (str "a" ++ ' ' :: str "cache")) phraseCatalog
        artisanAliases (provider_names_without_alias phraseCatalog artisanAliasByName)
        defaultRanking [] = []) ∧
    refreshResult fuzzyScore (str ":artisan cache") phraseCatalog artisanAliases
      (provider_names_without_alias phraseCatalog artisanAliasByName) defaultRanking [] = []) :=
  ⟨⟨by decide, by decide⟩,
    provider_selector_resolution artisanAliases
      (provider_names_without_alias phraseCatalog artisanAliasByName) (str "a") (str "cache")
      fuzzyScore phraseCatalog defaultRanking [] (by decide) (by decide)⟩

theorem parseSgrLoop_drop (d : StyleE) (dfg : ColorE) (params : Str)
    (hparams : ∀ x ∈ params, (x.isDigit || x = ';') = true) (c : Char)
    (hcm : c ≠ 'm') (hcp : (c.isDigit || c = ';') = false) (rest : Str) :
    ∀ (style : StyleE) (seqAcc : Str),
      parseSgrLoop d dfg (params ++ c :: rest) style seqAcc =
        parseAnsiAux d dfg rest style [] := by
  induction params with
  | nil =>
    intro style seqAcc
    simp only [List.nil_append, parseSgrLoop]
    rw [if_neg hcm, if_neg (by simp [hcp])]
  | cons p ps ih =>
    intro style seqAcc
    have hp := hparams p (List.mem_cons_self p ps)
    have hpm : p ≠ 'm' := by
      intro he
      subst he
      simp at hp
    simp only [List.cons_append, parseSgrLoop]
    rw [if_neg hpm, if_pos hp]
    exact ih (fun x hx => hparams x (List.mem_cons_of_mem p hx)) style (seqAcc ++ [p])

theorem parseAnsiAux_esc (d : StyleE) (dfg : ColorE) (pre : Str)
    (hpre : ∀ x ∈ pre, x ≠ '\x1b') (inner : Str) :
    ∀ (style : StyleE) (buffer : Str),
      parseAnsiAux d dfg (pre ++ '\x1b' :: '[' :: inner) style buffer =
        (if buffer ++ pre = [] then [] else [(buffer ++ pre, style)]) ++
          parseSgrLoop d dfg inner style [] := by
  induction pre with
  | nil =>
    intro style buffer
    simp [parseAnsiAux]
  | cons x xs ih =>
    intro style buffer
    have hx : x ≠ '\x1b' := hpre x (List.mem_cons_self x xs)
    simp only [List.cons_append, parseAnsiAux]
    rw [if_neg (by simp [hx])]
    rw [ih (fun y hy => hpre y (List.mem_cons_of_mem x hy)) style (buffer ++ [x])]
    simp

theorem parseAnsiAux_no_esc (d : StyleE) (dfg : ColorE) (text : Str)
    (htext : ∀ x ∈ text, x ≠ '\x1b') :
    ∀ (style : StyleE) (buffer : Str),
      parseAnsiAux d dfg text style buffer =
        (if buffer ++ text = [] then [] else [(buffer ++ text, style)]) := by
  induction text with
  | nil =>
    intro style buffer
    simp [parseAnsiAux]
  | cons x xs ih =>
    intro style buffer
    have hx : x ≠ '\x1b' := htext x (List.mem_cons_self x xs)
    simp only [parseAnsiAux]
    rw [if_neg (by simp [hx])]
    rw [ih (fun y hy => htext y (List.mem_cons_of_mem x hy)) style (buffer ++ [x])]
    simp

/-- C3 (counterexample): for the claim's own example `ESC[?25h`, the
interpreter drops only `ESC [ ?` and emits the remaining bytes `25h` as a
visible segment, so bytes of the escape sequence do appear in the output
(the claim requires none of them to appear and the surrounding text to be
the only output). -/
theorem unknown_csi_leaves_trailing_bytes_visible :
    parse_ansi_spans (str "\x1b[?25h") emptyStyle .White = [(str "25h", emptyStyle)] ∧
    str "25h" ≠ [] := by
  constructor
  · have he : str "\x1b[?25h" =
        ([] : Str) ++ '\x1b' :: '[' :: (([] : Str) ++ '?' :: str "25h") := by
      decide
    rw [he]
    unfold parse_ansi_spans
    rw [parseAnsiAux_esc emptyStyle .White [] (by simp) _ emptyStyle [],
      parseSgrLoop_drop emptyStyle .White [] (by simp) '?' (by decide) (by decide) (str "25h"),
      parseAnsiAux_no_esc emptyStyle .White (str "25h") (by decide) emptyStyle []]
    decide
  · decide

/-- C3 (amended): a CSI escape sequence whose parameter run ends in a byte
other than `m` is dropped up to and including that first non-parameter byte
(`ESC`, `[`, the digit/semicolon run, and the terminating byte); the bytes
after it remain visible text, the preceding text is preserved in order with
its style, parsing continues on the remainder with the style unchanged, and
no error is raised (the interpreter is total). -/
theorem non_sgr_dropped_to_first_invalid_byte (d : StyleE) (dfg : ColorE)
    (pre params rest : Str) (c : Char)
    (hpre : ∀ x ∈ pre, x ≠ '\x1b')
    (hparams : ∀ x ∈ params, (x.isDigit || x = ';') = true)
    (hcm : c ≠ 'm') (hcp : (c.isDigit || c = ';') = false) :
    parse_ansi_spans (pre ++ '\x1b' :: '[' :: (params ++ c :: rest)) d dfg =
      (let spans := (if pre = [] then [] else [(pre, d)]) ++ parseAnsiAux d dfg rest d [];
       if spans = [] then [([], d)] else spans) := by
  unfold parse_ansi_spans
  rw [parseAnsiAux_esc d dfg pre hpre _ d [],
    parseSgrLoop_drop d dfg params hparams c hcm hcp rest d []]
  simp

/-- Witness for C3 (amended) at the claim's example `ESC[?25h`. -/
theorem non_sgr_dropped_witness :
    ((∀ x ∈ ([] : Str), x ≠ '\x1b') ∧ (∀ x ∈ ([] : Str), (x.isDigit || x = ';') = true) ∧
      '?' ≠ 'm' ∧ ('?'.isDigit || '?' = ';') = false) ∧
    parse_ansi_spans (([] : Str) ++ '\x1b' :: '[' :: (([] : Str) ++ '?' :: str "25h"))
        emptyStyle .White =
      (let spans := (if ([] : Str) = [] then [] else [(([] : Str), emptyStyle)]) ++
          parseAnsiAux emptyStyle .White (str "25h") emptyStyle [];
       if spans = [] then [([], emptyStyle)] else spans) :=
  ⟨⟨by decide, by decide, by decide, by decide⟩,
    non_sgr_dropped_to_first_invalid_byte emptyStyle .White [] [] (str "25h") '?'
      (by decide) (by decide) (by decide) (by decide)⟩

theorem utf8Len_cons (c : Char) (t : Str) : utf8Len (c :: t) = c.utf8Size + utf8Len t := rfl

theorem utf8Len_append (a b : Str) : utf8Len (a ++ b) = utf8Len a + utf8Len b := by
  induction a with
  | nil => simp [utf8Len]
  | cons c t ih => simp [utf8Len_cons, ih, Nat.add_assoc]

theorem utf8Len_take_lt (s : Str) : ∀ (k : Nat), k < s.length → utf8Len (s.take k) < utf8Len s := by
  induction s with
  | nil => intro k hk; simp at hk
  | cons c t ih =>
    intro k hk
    cases k with
    | zero =>
      have := Char.utf8Size_pos c
      simp only [List.take_zero, utf8Len_cons]
      have h0 : utf8Len ([] : Str) = 0 := rfl
      rw [h0]
      omega
    | succ j =>
      have hj : j < t.length := Nat.succ_lt_succ_iff.mp hk
      simp only [List.take_succ_cons, utf8Len_cons]
      exact Nat.add_lt_add_left (ih j hj) _

theorem charIndicesAux_get_fst (s : Str) : ∀ (off i : Nat),
    ((charIndicesAux off s).get? i).map Prod.fst =
      if i < s.length then some (off + utf8Len (s.take i)) else none := by
  induction s with
  | nil => intro off i; simp [charIndicesAux]
  | cons c t ih =>
    intro off i
    cases i with
    | zero =>
      have h0 : utf8Len ([] : Str) = 0 := rfl
      simp [charIndicesAux, h0]
    | succ j =>
      simp only [charIndicesAux, List.get?_cons_succ, ih (off + c.utf8Size) j,
        List.length_cons, Nat.succ_lt_succ_iff, List.take_succ_cons, utf8Len_cons]
      by_cases hj : j < t.length
      · simp [hj, Nat.add_assoc]
      · simp [hj]

theorem byte_index_for_char_eq (s : Str) (i : Nat) :
    byte_index_for_char s i = utf8Len (s.take (min i s.length)) := by
  unfold byte_index_for_char charIndices
  by_cases h0 : i = 0
  · subst h0
    have h0' : utf8Len ([] : Str) = 0 := rfl
    simp [h0']
  · rw [if_neg h0, charIndicesAux_get_fst s 0 i]
    by_cases hi : i < s.length
    · simp [hi, Nat.min_eq_left (Nat.le_of_lt hi)]
    · rw [if_neg hi]
      rw [Nat.min_eq_right (Nat.le_of_not_lt hi), List.take_length]
      rfl

theorem insertAtByteIdx_boundary (c : Char) : ∀ (s : Str) (k : Nat), k ≤ s.length →
    insertAtByteIdx s (utf8Len (s.take k)) c = some (s.take k ++ c :: s.drop k) := by
  intro s
  induction s with
  | nil =>
    intro k hk
    have hk0 : k = 0 := Nat.le_zero.mp hk
    subst hk0
    rfl
  | cons h t ih =>
    intro k hk
    cases k with
    | zero => rfl
    | succ j =>
      have hj : j ≤ t.length := Nat.succ_le_succ_iff.mp hk
      have hpos := Char.utf8Size_pos h
      rw [List.take_succ_cons, utf8Len_cons]
      unfold insertAtByteIdx
      rw [if_neg (by omega)]
      simp only [if_pos (Nat.le_add_right _ _), Nat.add_sub_cancel_left, ih j hj,
        Option.map_some]
      simp [List.drop_succ_cons]

theorem splitAtByte_boundary : ∀ (s : Str) (k : Nat), k ≤ s.length →
    splitAtByte s (utf8Len (s.take k)) = some (s.take k, s.drop k) := by
  intro s
  induction s with
  | nil =>
    intro k hk
    have hk0 : k = 0 := Nat.le_zero.mp hk
    subst hk0
    rfl
  | cons h t ih =>
    intro k hk
    cases k with
    | zero => rfl
    | succ j =>
      have hj : j ≤ t.length := Nat.succ_le_succ_iff.mp hk
      have hpos := Char.utf8Size_pos h
      rw [List.take_succ_cons, utf8Len_cons]
      unfold splitAtByte
      rw [if_neg (by omega)]
      simp only [if_pos (Nat.le_add_right _ _), Nat.add_sub_cancel_left, ih j hj,
        Option.map_some]
      simp [List.drop_succ_cons]

theorem removeByteRange_char (s : Str) (i : Nat) (hi : i < s.length) :
    removeByteRange s (utf8Len (s.take i)) (utf8Len (s.take (i + 1))) =
      some (s.eraseIdx i) := by
  have hnil : utf8Len ([] : Str) = 0 := rfl
  have hsz : utf8Len (s.take (i + 1)) = utf8Len (s.take i) + (s[i]).utf8Size := by
    rw [List.take_succ, List.getElem?_eq_getElem hi, utf8Len_append]
    simp [Option.toList, utf8Len_cons, hnil]
  have hdrop : s.drop i = s[i] :: s.drop (i + 1) := List.drop_eq_getElem_cons hi
  have h1 : utf8Len ((s[i] :: s.drop (i + 1)).take 1) = (s[i]).utf8Size := by
    rw [List.take_succ_cons, List.take_zero, utf8Len_cons, hnil]
    rfl
  have hstop : utf8Len (s.take (i + 1)) - utf8Len (s.take i) = (s[i]).utf8Size := by omega
  unfold removeByteRange
  rw [if_neg (by omega)]
  simp only [splitAtByte_boundary s i (Nat.le_of_lt hi), hstop, hdrop, ← h1,
    splitAtByte_boundary (s[i] :: s.drop (i + 1)) 1
      (by simp only [List.length_cons]; omega)]
  simp [List.eraseIdx_eq_take_drop_succ]

/-- C10: the query-editing helpers are total and codepoint-safe: for every
string and character index, `byte_index_for_char` returns the byte offset of
a character boundary (the total byte length when the index is out of range),
`insert_char_at` inserts at that boundary without panicking, and
`remove_char_at` removes exactly the indexed character and returns `true`
when it exists, otherwise returns `false` leaving the string unchanged. -/
theorem editing_helpers_total_and_codepoint_safe (s : Str) (i : Nat) (c : Char) :
    byte_index_for_char s i = utf8Len (s.take (min i s.length)) ∧
    insert_char_at s i c =
      some (s.take (min i s.length) ++ c :: s.drop (min i s.length)) ∧
    remove_char_at s i = some (if i < s.length then (s.eraseIdx i, true) else (s, false)) := by
  refine ⟨byte_index_for_char_eq s i, ?_, ?_⟩
  · unfold insert_char_at
    rw [byte_index_for_char_eq s i]
    exact insertAtByteIdx_boundary c s (min i s.length) (Nat.min_le_right _ _)
  · unfold remove_char_at
    rw [byte_index_for_char_eq s i, byte_index_for_char_eq s (i + 1)]
    by_cases hi : i < s.length
    · rw [Nat.min_eq_left (Nat.le_of_lt hi), Nat.min_eq_left (Nat.succ_le_of_lt hi)]
      rw [if_neg (Nat.not_le.mpr (utf8Len_take_lt s i hi))]
      rw [removeByteRange_char s i hi]
      simp [hi]
    · rw [Nat.min_eq_right (Nat.le_of_not_lt hi),
        Nat.min_eq_right (by omega : s.length ≤ i + 1), List.take_length]
      rw [if_pos (Nat.le_refl _)]
      simp [hi]
